import Mathlib

/-!
Shallow embedding of the `build-util` helper library (src/build/util/src/lib.rs).

The library reads process environment variables, optionally parses their
contents as toml, emits cargo directives on standard output, and builds a
task-name-to-index map.  We model:

* the process environment as a read-only map `Env` from variable names to
  optional values (a value is either valid UTF-8 text or present-but-invalid);
* standard output as an explicit `List String` of printed lines, returned
  alongside each result;
* `panic` (from Rust `expect`/`unwrap`) and `std::process::exit` as explicit
  outcome constructors, so that termination behaviour is visible;
* toml deserialization into a caller shape `T` as an abstract parameter
  `parse : Toml T` (the library calls a general-purpose deserializer, whose
  internals are out of scope).
-/

deriving instance DecidableEq for Except

namespace BuildUtil

/-- Value held by an environment variable: either valid UTF-8 text, or a
value that is present but not valid UTF-8 (whose raw bytes we do not model). -/
inductive EnvVal where
  | utf8 (s : String)
  | nonUtf8
deriving DecidableEq

/-- The process environment: a read-only map from variable names to values. -/
def Env : Type := String → Option EnvVal

/-- Mirrors `std::env::VarError`. -/
inductive VarError where
  | notPresent
  | notUnicode
deriving DecidableEq

/-- Mirrors `std::env::var`: `Err(NotPresent)` when unset, `Err(NotUnicode)`
when set to a non-UTF-8 value, `Ok` with the text otherwise. -/
def stdEnvVar (env : Env) (key : String) : Except VarError String :=
  match env key with
  | none => .error .notPresent
  | some .nonUtf8 => .error .notUnicode
  | some (.utf8 s) => .ok s

/-- `env_var`: the tracked environment read.  It always prints the
rebuild-trigger directive for `key`, then reads the variable. -/
def env_var (env : Env) (key : String) : List String × Except VarError String :=
  (["cargo:rerun-if-env-changed=" ++ key], stdEnvVar env key)

/-- Model of Rust `str::to_uppercase`, restricted to the ASCII uppercasing
that `Char.toUpper` performs (feature names are ASCII). -/
def toUppercase (s : String) : String :=
  String.mk (s.data.map Char.toUpper)

/-- Model of Rust `str::replace("-", "_")`: the pattern is a single
character, so it is a character-wise substitution. -/
def replaceDash (s : String) : String :=
  String.mk (s.data.map fun c => if c = '-' then '_' else c)

/-- The backing variable consulted by `has_feature`:
`CARGO_FEATURE_` followed by the uppercased, dash-to-underscore name. -/
def featureVar (s : String) : String :=
  "CARGO_FEATURE_" ++ replaceDash (toUppercase s)

/-- `has_feature`: true exactly when the backing `CARGO_FEATURE_` variable is
readable (`std::env::var(..).is_ok()`); uses the untracked read. -/
def has_feature (env : Env) (s : String) : Bool :=
  match stdEnvVar env (featureVar s) with
  | .ok _ => true
  | .error _ => false

/-- Boolean string-starts-with test, mirroring Rust `str::starts_with`:
the first argument list is the candidate, the second the data scanned. -/
def isPrefixL : List Char → List Char → Bool
  | [], _ => true
  | _ :: _, [] => false
  | a :: p, b :: l => a = b && isPrefixL p l

/-- `s.startsWith pat` on our character-list representation. -/
def strStarts (s pat : String) : Bool :=
  isPrefixL pat.data s.data

/-- Outcome of code that may panic (Rust `expect` / `unwrap`). -/
inductive RunResult (T : Type) where
  | panics (msg : String)
  | completes (v : T)
deriving DecidableEq

/-- `expose_m_profile`: reads `TARGET` (panicking if unreadable, as
`target()` unwraps), then emits one `cargo:rustc-cfg` profile line, or else
prints a diagnostic and exits with status 1.  The completed value is the
pair (printed lines, optional process exit status). -/
def expose_m_profile (env : Env) : RunResult (List String × Option Nat) :=
  match stdEnvVar env "TARGET" with
  | .error _ => .panics "TARGET not set"
  | .ok target =>
    .completes <|
      if strStarts target "thumbv6m" then
        (["cargo:rustc-cfg=armv6m"], none)
      else if strStarts target "thumbv7m" || strStarts target "thumbv7em" then
        (["cargo:rustc-cfg=armv7m"], none)
      else if strStarts target "thumbv8m" then
        (["cargo:rustc-cfg=armv8m"], none)
      else
        (["Don\x27t know the target " ++ target], some 1)

/-- `expose_target_board`: tracked read of `HUBRIS_BOARD`; on success emits
the `target_board` cfg line, otherwise emits nothing further.  Returns the
printed lines. -/
def expose_target_board (env : Env) : List String :=
  let r := env_var env "HUBRIS_BOARD"
  match r.2 with
  | .ok board => r.1 ++ ["cargo:rustc-cfg=target_board=\"" ++ board ++ "\""]
  | .error _ => r.1

/-- Abstract model of toml deserialization into the caller shape `T`
(`toml::from_slice`): either a value or a deserializer error message. -/
def Toml (T : Type) : Type := String → Except String T

/-- Errors returned by the config accessors (the `anyhow` error chain):
an environment-access error with its context line, a deserialization error
with its context line and the underlying message, or a plain message. -/
inductive BuildErr where
  | envError (context : String)
  | parseError (context : String) (msg : String)
  | message (msg : String)
deriving DecidableEq

/-- `toml_from_env`: tracked read of `var`; unset is `Ok none`; a non-UTF-8
value is an error with the context line naming the variable; otherwise the
raw contents are echoed and parsed, parse failure getting the
deserialization context. -/
def toml_from_env {T : Type} (parse : Toml T) (env : Env) (var : String) :
    List String × Except BuildErr (Option T) :=
  let r := env_var env var
  match r.2 with
  | .error .notPresent => (r.1, .ok none)
  | .error .notUnicode =>
      (r.1, .error (.envError ("accessing environment variable " ++ var)))
  | .ok c =>
      let out := r.1 ++ ["--- toml for $" ++ var ++ " ---", c]
      match parse c with
      | .error e => (out, .error (.parseError "deserializing configuration" e))
      | .ok v => (out, .ok (some v))

/-- `config`: the app-wide configuration; absent section is the fixed
missing-global-config error. -/
def config {T : Type} (parse : Toml T) (env : Env) :
    List String × Except BuildErr T :=
  let r := toml_from_env parse env "HUBRIS_APP_CONFIG"
  (r.1, match r.2 with
    | .error e => .error e
    | .ok none => .error (.message "app.toml missing global config section [config]")
    | .ok (some v) => .ok v)

/-- `task_maybe_config`: the lenient per-task configuration accessor. -/
def task_maybe_config {T : Type} (parse : Toml T) (env : Env) :
    List String × Except BuildErr (Option T) :=
  toml_from_env parse env "HUBRIS_TASK_CONFIG"

/-- `task_config`: the strict per-task configuration accessor.  It first
reads `HUBRIS_TASK_NAME` with `expect` (a panic when unreadable), then turns
an absent `HUBRIS_TASK_CONFIG` into the named-task error. -/
def task_config {T : Type} (parse : Toml T) (env : Env) :
    List String × RunResult (Except BuildErr T) :=
  let r1 := env_var env "HUBRIS_TASK_NAME"
  match r1.2 with
  | .error _ => (r1.1, .panics "missing HUBRIS_TASK_NAME")
  | .ok task_name =>
    let r2 := task_maybe_config parse env
    (r1.1 ++ r2.1, .completes (match r2.2 with
      | .error e => .error e
      | .ok none => .error (.message
          ("app.toml missing task config section [tasks." ++ task_name ++ ".config]"))
      | .ok (some v) => .ok v))

/-- Splitting a character list at commas, mirroring Rust `str::split(',')`:
the empty input yields one empty piece, and empty pieces are kept. -/
def splitComma : List Char → List (List Char)
  | [] => [[]]
  | c :: rest =>
    let r := splitComma rest
    if c = ',' then [] :: r
    else
      match r with
      | [] => [[c]]
      | p :: ps => (c :: p) :: ps

/-- `str::split(',')` on strings. -/
def splitCommaStr (s : String) : List String :=
  (splitComma s.data).map String.mk

/-- `enumerate().map(|(i, name)| (name, i))` starting at index `i`:
the insertion-ordered (name, index) pairs fed into the map. -/
def entriesFrom (i : Nat) : List String → List (String × Nat)
  | [] => []
  | n :: rest => (n, i) :: entriesFrom (i + 1) rest

/-- Map of task names to their IDs.  `entries` is the insertion order of the
underlying `BTreeMap::collect`; a later insertion of the same key overwrites
an earlier one, which `TaskIds.get` reflects. -/
structure TaskIds where
  entries : List (String × Nat)
deriving DecidableEq

/-- The map built from a `HUBRIS_TASKS` value. -/
def taskIdsOf (tasks : String) : TaskIds :=
  ⟨entriesFrom 0 (splitCommaStr tasks)⟩

/-- `task_ids`: tracked read of `HUBRIS_TASKS` (panicking when unreadable,
as the source `expect`s), then the positional map. -/
def task_ids (env : Env) : List String × RunResult TaskIds :=
  let r := env_var env "HUBRIS_TASKS"
  (r.1, match r.2 with
    | .error _ => .panics "missing HUBRIS_TASKS"
    | .ok tasks => .completes (taskIdsOf tasks))

/-- `TaskIds::get`: `BTreeMap` lookup.  Because `collect` lets a later
insertion of a key overwrite an earlier one, the lookup is last-wins over
the insertion-ordered entries. -/
def TaskIds.get (t : TaskIds) (name : String) : Option Nat :=
  t.entries.foldl (fun acc p => if p.1 = name then some p.2 else acc) none

/-- `TaskIds::names_to_ids`: translate names to IDs in input order;
`collect::<Result<..>>` stops at the first failing name. -/
def TaskIds.names_to_ids (t : TaskIds) : List String → Except BuildErr (List Nat)
  | [] => .ok []
  | n :: rest =>
    match t.get n with
    | none => .error (.message ("unknown task `" ++ n ++ "`"))
    | some i =>
      match t.names_to_ids rest with
      | .error e => .error e
      | .ok js => .ok (i :: js)

/-- Recursive characterization of last-wins lookup over entry lists. -/
def lookupLast (l : List (String × Nat)) (name : String) : Option Nat :=
  match l with
  | [] => none
  | p :: rest =>
    match lookupLast rest name with
    | some v => some v
    | none => if p.1 = name then some p.2 else none

/-! Helper lemmas. -/

/-- Appending strings appends their character data. -/
lemma string_data_append (a b : String) : (a ++ b).data = a.data ++ b.data := by
  cases a; cases b; rfl

/-- Two starts-with candidates accepted by the same data are nested: the
shorter candidate is a starts-with candidate of the longer. -/
lemma isPrefixL_of_both : ∀ (p q l : List Char), isPrefixL p l = true →
    isPrefixL q l = true → p.length ≤ q.length → isPrefixL p q = true := by
  intro p
  induction p with
  | nil => intro q l _ _ _; rfl
  | cons a p ih =>
    intro q l hp hq hlen
    cases q with
    | nil => simp at hlen
    | cons b q =>
      cases l with
      | nil => simp [isPrefixL] at hp
      | cons c l =>
        simp only [isPrefixL, Bool.and_eq_true, decide_eq_true_eq] at hp hq ⊢
        obtain ⟨hac, hp⟩ := hp
        obtain ⟨hbc, hq⟩ := hq
        refine ⟨hac.trans hbc.symm, ih q l hp hq ?_⟩
        simpa using hlen
/-- No string starts with both of two candidates that are incompatible, the
first being at most as long as the second. -/
lemma strStarts_excl (t p q : String) (hlen : p.data.length ≤ q.data.length)
    (hpq : isPrefixL p.data q.data = false) :
    ¬(strStarts t p = true ∧ strStarts t q = true) := by
  rintro ⟨hp, hq⟩
  have := isPrefixL_of_both p.data q.data t.data hp hq hlen
  rw [hpq] at this
  exact Bool.false_ne_true this

/-- The unknown-target diagnostic line never coincides with a string whose
first character is a lowercase c, such as a cargo cfg flag line. -/
lemma diag_ne_flag (t s : String) (hs : s.data.head? = some 'c') :
    "Don\x27t know the target " ++ t ≠ s := by
  intro h
  have hd : ("Don\x27t know the target " ++ t).data = s.data := congrArg String.data h
  rw [string_data_append] at hd
  rw [show "Don\x27t know the target ".data
        = 'D' :: "on\x27t know the target ".data from rfl] at hd
  have hh := congrArg List.head? hd
  rw [hs] at hh
  simp only [List.cons_append, List.head?_cons, Option.some.injEq] at hh
  exact absurd hh (by decide)

/-- Last-wins foldl lookup expressed through the recursive characterization. -/
lemma foldl_lastWins (name : String) :
    ∀ (l : List (String × Nat)) (acc : Option Nat),
      l.foldl (fun acc p => if p.1 = name then some p.2 else acc) acc
        = match lookupLast l name with
          | some v => some v
          | none => acc := by
  intro l
  induction l with
  | nil => intro acc; rfl
  | cons p rest ih =>
    intro acc
    rw [List.foldl_cons, ih]
    cases hl : lookupLast rest name with
    | some v => simp [lookupLast, hl]
    | none => by_cases hp : p.1 = name <;> simp [lookupLast, hl, hp]

/-- TaskIds.get agrees with the recursive last-wins characterization. -/
lemma TaskIds.get_eq_lookupLast (t : TaskIds) (name : String) :
    t.get name = lookupLast t.entries name := by
  unfold TaskIds.get
  rw [foldl_lastWins]
  cases lookupLast t.entries name <;> rfl

/-- Names absent from the list are absent from the positional entries. -/
lemma lookupLast_entriesFrom_notMem (n : String) :
    ∀ (names : List String) (k : Nat), n ∉ names →
      lookupLast (entriesFrom k names) n = none := by
  intro names
  induction names with
  | nil => intro k _; rfl
  | cons a rest ih =>
    intro k h
    have hmem : n ∉ rest := fun hm => h (List.mem_cons_of_mem a hm)
    have hna : a ≠ n := fun he => h (by rw [← he]; exact List.mem_cons_self a rest)
    simp [entriesFrom, lookupLast, ih (k + 1) hmem, hna]

/-- In a duplicate-free list, the positional lookup returns the position. -/
lemma lookupLast_entriesFrom_nodup :
    ∀ (names : List String), names.Nodup → ∀ (k i : Nat) (n : String),
      names[i]? = some n → lookupLast (entriesFrom k names) n = some (k + i) := by
  intro names
  induction names with
  | nil => intro _ k i n h; simp at h
  | cons a rest ih =>
    intro hnd k i n h
    rw [List.nodup_cons] at hnd
    obtain ⟨hna, hndr⟩ := hnd
    cases i with
    | zero =>
      have ha : a = n := by simpa using h
      subst ha
      simp [entriesFrom, lookupLast, lookupLast_entriesFrom_notMem a rest (k + 1) hna]
    | succ j =>
      have h' : rest[j]? = some n := by simpa using h
      have hr := ih hndr (k + 1) j n h'
      simp only [entriesFrom, lookupLast, hr]
      congr 1
      omega

/-- The positional lookup finds the last occurrence of a present name. -/
lemma lookupLast_entriesFrom_lastOcc :
    ∀ (names : List String) (n : String), n ∈ names → ∀ (k : Nat),
      ∃ m, names[m]? = some n ∧
        lookupLast (entriesFrom k names) n = some (k + m) ∧
        ∀ m', m < m' → names[m']? ≠ some n := by
  intro names
  induction names with
  | nil => intro n h; exact absurd h (List.not_mem_nil n)
  | cons a rest ih =>
    intro n h k
    by_cases hr : n ∈ rest
    · obtain ⟨m, h1, h2, h3⟩ := ih n hr (k + 1)
      refine ⟨m + 1, by simpa using h1, ?_, ?_⟩
      · simp only [entriesFrom, lookupLast, h2]
        congr 1
        omega
      · intro m' hm'
        cases m' with
        | zero => omega
        | succ j =>
          intro hc
          exact h3 j (by omega) (by simpa using hc)
    · have hn : n = a := by
        rcases List.mem_cons.mp h with h | h
        · exact h
        · exact absurd h hr
      subst hn
      refine ⟨0, by simp, ?_, ?_⟩
      · simp [entriesFrom, lookupLast, lookupLast_entriesFrom_notMem n rest (k + 1) hr]
      · intro m' hm'
        cases m' with
        | zero => omega
        | succ j =>
          intro hc
          exact hr (List.getElem?_mem (by simpa using hc))

/-- When every name is present, the translation succeeds with the looked-up
ids in input order. -/
lemma names_to_ids_all_present (t : TaskIds) :
    ∀ (names : List String), (∀ n ∈ names, (t.get n).isSome) →
      t.names_to_ids names = .ok (names.map fun n => (t.get n).getD 0) := by
  intro names
  induction names with
  | nil => intro _; rfl
  | cons n rest ih =>
    intro h
    have hn := h n (List.mem_cons_self n rest)
    obtain ⟨i, hi⟩ := Option.isSome_iff_exists.mp hn
    have hr := ih fun m hm => h m (List.mem_cons_of_mem n hm)
    simp [TaskIds.names_to_ids, hi, hr]

/-- The translation fails with the message naming the first name whose
lookup is empty. -/
lemma names_to_ids_first_unknown (t : TaskIds) :
    ∀ (names : List String) (bad : String),
      names.find? (fun n => (t.get n).isNone) = some bad →
      t.names_to_ids names = .error (.message ("unknown task `" ++ bad ++ "`")) := by
  intro names
  induction names with
  | nil => intro bad h; simp at h
  | cons n rest ih =>
    intro bad h
    by_cases hn : (t.get n).isNone = true
    · rw [List.find?_cons_of_pos (p := fun m => (t.get m).isNone) rest hn] at h
      obtain rfl : n = bad := by simpa using h
      have hg : t.get n = none := Option.isNone_iff_eq_none.mp hn
      simp [TaskIds.names_to_ids, hg]
    · rw [List.find?_cons_of_neg (p := fun m => (t.get m).isNone) rest
          (by simpa using hn)] at h
      have hg : ∃ i, t.get n = some i := by
        cases hgn : t.get n with
        | none => exact absurd (by simp [hgn]) hn
        | some i => exact ⟨i, rfl⟩
      obtain ⟨i, hi⟩ := hg
      simp [TaskIds.names_to_ids, hi, ih bad h]

/-! Claim theorems. -/

/-- C1: for every value of the `TARGET` environment variable,
`expose_m_profile` emits exactly one profile flag: armv6m when the triple
starts with thumbv6m, armv7m when it starts with thumbv7m or thumbv7em,
armv8m when it starts with thumbv8m; these prefix classes are mutually
exclusive; and for every triple matching none of them it emits no profile
flag, prints a diagnostic naming the unrecognized triple, and terminates
the process with the non-zero exit status 1. -/
theorem expose_m_profile_profile_flags (env : Env) (target : String)
    (h : env "TARGET" = some (.utf8 target)) :
    (strStarts target "thumbv6m" = true →
      expose_m_profile env = .completes (["cargo:rustc-cfg=armv6m"], none)) ∧
    (strStarts target "thumbv7m" = true ∨ strStarts target "thumbv7em" = true →
      expose_m_profile env = .completes (["cargo:rustc-cfg=armv7m"], none)) ∧
    (strStarts target "thumbv8m" = true →
      expose_m_profile env = .completes (["cargo:rustc-cfg=armv8m"], none)) ∧
    (strStarts target "thumbv6m" = false → strStarts target "thumbv7m" = false →
     strStarts target "thumbv7em" = false → strStarts target "thumbv8m" = false →
      expose_m_profile env =
        .completes (["Don\x27t know the target " ++ target], some 1) ∧
      "Don\x27t know the target " ++ target ≠ "cargo:rustc-cfg=armv6m" ∧
      "Don\x27t know the target " ++ target ≠ "cargo:rustc-cfg=armv7m" ∧
      "Don\x27t know the target " ++ target ≠ "cargo:rustc-cfg=armv8m") := by
  have e6_7m := strStarts_excl target "thumbv6m" "thumbv7m" (by decide) (by decide)
  have e6_7em := strStarts_excl target "thumbv6m" "thumbv7em" (by decide) (by decide)
  have e6_8 := strStarts_excl target "thumbv6m" "thumbv8m" (by decide) (by decide)
  have e7m_8 := strStarts_excl target "thumbv7m" "thumbv8m" (by decide) (by decide)
  have e8_7em := strStarts_excl target "thumbv8m" "thumbv7em" (by decide) (by decide)
  refine ⟨fun h6 => ?_, fun h7 => ?_, fun h8 => ?_, fun h6 h7m h7em h8 => ?_⟩
  · simp [expose_m_profile, stdEnvVar, h, h6]
  · have h6 : strStarts target "thumbv6m" = false := by
      cases hb : strStarts target "thumbv6m" with
      | false => rfl
      | true =>
        rcases h7 with h7m | h7em
        · exact absurd ⟨hb, h7m⟩ e6_7m
        · exact absurd ⟨hb, h7em⟩ e6_7em
    rcases h7 with h7m | h7em
    · simp [expose_m_profile, stdEnvVar, h, h6, h7m]
    · simp [expose_m_profile, stdEnvVar, h, h6, h7em]
  · have h6 : strStarts target "thumbv6m" = false := by
      cases hb : strStarts target "thumbv6m" with
      | false => rfl
      | true => exact absurd ⟨hb, h8⟩ e6_8
    have h7m : strStarts target "thumbv7m" = false := by
      cases hb : strStarts target "thumbv7m" with
      | false => rfl
      | true => exact absurd ⟨hb, h8⟩ e7m_8
    have h7em : strStarts target "thumbv7em" = false := by
      cases hb : strStarts target "thumbv7em" with
      | false => rfl
      | true => exact absurd ⟨h8, hb⟩ e8_7em
    simp [expose_m_profile, stdEnvVar, h, h6, h7m, h7em, h8]
  · refine ⟨?_, diag_ne_flag target _ (by decide), diag_ne_flag target _ (by decide),
      diag_ne_flag target _ (by decide)⟩
    simp [expose_m_profile, stdEnvVar, h, h6, h7m, h7em, h8]

/-- C1 witness: at the concrete triple thumbv7em-none-eabihf, exactly the
armv7m flag is emitted and the process does not exit. -/
theorem expose_m_profile_profile_flags_witness :
    expose_m_profile
        (fun k => if k = "TARGET" then some (.utf8 "thumbv7em-none-eabihf") else none)
      = .completes (["cargo:rustc-cfg=armv7m"], none) :=
  (expose_m_profile_profile_flags
      (fun k => if k = "TARGET" then some (.utf8 "thumbv7em-none-eabihf") else none)
      "thumbv7em-none-eabihf" (by decide)).2.1 (Or.inr (by decide))

/-- C2: for every variable name, toml_from_env returns exactly one of three
outcomes: Ok none when the variable is absent; an error whose context names
the variable when it is present but not valid UTF-8; and a deserialization
error (a returned value, never a panic) when the text is present but the
parse fails; a successful parse returns the value. -/
theorem toml_from_env_trichotomy {T : Type} (parse : Toml T) (env : Env) (var : String) :
    (env var = none → (toml_from_env parse env var).2 = .ok none) ∧
    (env var = some .nonUtf8 →
      (toml_from_env parse env var).2 =
        .error (.envError ("accessing environment variable " ++ var))) ∧
    (∀ c, env var = some (.utf8 c) →
      (∀ e, parse c = .error e →
        (toml_from_env parse env var).2 =
          .error (.parseError "deserializing configuration" e)) ∧
      (∀ v, parse c = .ok v → (toml_from_env parse env var).2 = .ok (some v))) := by
  refine ⟨fun h => ?_, fun h => ?_, fun c hc => ⟨fun e he => ?_, fun v hv => ?_⟩⟩ <;>
    simp [toml_from_env, env_var, stdEnvVar, *]

/-- C2 witness: on an empty environment the lookup of HUBRIS_TASK_CONFIG is
absent and the result is Ok none. -/
theorem toml_from_env_trichotomy_witness :
    (toml_from_env (fun s => if s = "x = 1" then Except.ok 1 else Except.error "parse")
        (fun _ => none) "HUBRIS_TASK_CONFIG").2 = Except.ok none :=
  (toml_from_env_trichotomy
      (fun s => if s = "x = 1" then Except.ok 1 else Except.error "parse")
      (fun _ => none) "HUBRIS_TASK_CONFIG").1 rfl

/-- C5: feature names that agree after uppercasing and after identifying
dash with underscore consult the same backing CARGO_FEATURE variable and
therefore agree in every environment. -/
theorem has_feature_normalized (env : Env) (a b : String)
    (h : replaceDash (toUppercase a) = replaceDash (toUppercase b)) :
    featureVar a = featureVar b ∧ has_feature env a = has_feature env b := by
  have hf : featureVar a = featureVar b := by unfold featureVar; rw [h]
  exact ⟨hf, by unfold has_feature; rw [hf]⟩

/-- C5 witness: my-feature and MY_FEATURE normalize alike, hence resolve to
the same backing variable. -/
theorem has_feature_normalized_witness :
    featureVar "my-feature" = featureVar "MY_FEATURE" ∧
    has_feature (fun _ => none) "my-feature"
      = has_feature (fun _ => none) "MY_FEATURE" :=
  has_feature_normalized (fun _ => none) "my-feature" "MY_FEATURE" (by decide)

/-- C6: with HUBRIS_TASK_CONFIG absent and HUBRIS_TASK_NAME set to name, the
strict task_config completes with the error naming the task section, while
the lenient task_maybe_config returns Ok none. -/
theorem task_config_missing_section {T : Type} (parse : Toml T) (env : Env) (name : String)
    (hn : env "HUBRIS_TASK_NAME" = some (.utf8 name))
    (hc : env "HUBRIS_TASK_CONFIG" = none) :
    (task_config parse env).2 =
      .completes (.error (.message
        ("app.toml missing task config section [tasks." ++ name ++ ".config]"))) ∧
    (task_maybe_config parse env).2 = .ok none := by
  constructor <;>
    simp [task_config, task_maybe_config, toml_from_env, env_var, stdEnvVar, hn, hc]

/-- C6 witness: concrete instance with task name ping. -/
theorem task_config_missing_section_witness :
    (task_config (fun _ => Except.ok ())
        (fun k => if k = "HUBRIS_TASK_NAME" then some (EnvVal.utf8 "ping") else none)).2 =
      RunResult.completes (Except.error (BuildErr.message
        ("app.toml missing task config section [tasks." ++ "ping" ++ ".config]"))) ∧
    (task_maybe_config (fun _ => Except.ok ())
        (fun k => if k = "HUBRIS_TASK_NAME" then some (EnvVal.utf8 "ping") else none)).2 =
      Except.ok none :=
  task_config_missing_section (fun _ => Except.ok ())
    (fun k => if k = "HUBRIS_TASK_NAME" then some (EnvVal.utf8 "ping") else none)
    "ping" (by decide) (by decide)

/-- C7: config fails with the missing-global-config-section error when
HUBRIS_APP_CONFIG is absent, fails with the deserialization error when the
contents do not parse into the requested shape, and returns the
deserialized value when they do. -/
theorem config_cases {T : Type} (parse : Toml T) (env : Env) :
    (env "HUBRIS_APP_CONFIG" = none →
      (config parse env).2 =
        .error (.message "app.toml missing global config section [config]")) ∧
    (∀ c e, env "HUBRIS_APP_CONFIG" = some (.utf8 c) → parse c = .error e →
      (config parse env).2 = .error (.parseError "deserializing configuration" e)) ∧
    (∀ c v, env "HUBRIS_APP_CONFIG" = some (.utf8 c) → parse c = .ok v →
      (config parse env).2 = .ok v) := by
  refine ⟨fun h => ?_, fun c e hc he => ?_, fun c v hc hv => ?_⟩ <;>
    simp [config, toml_from_env, env_var, stdEnvVar, *]

/-- C7 witness: concrete empty environment yields the missing-section error. -/
theorem config_cases_witness :
    (config (fun s => if s = "x = 1" then Except.ok 1 else Except.error "parse")
        (fun _ => none)).2 =
      Except.error (BuildErr.message "app.toml missing global config section [config]") :=
  (config_cases (fun s => if s = "x = 1" then Except.ok 1 else Except.error "parse")
      (fun _ => none)).1 rfl

/-- C8 counterexample: with the whole environment empty, the missing
HUBRIS_TASK_NAME in task_config and the missing HUBRIS_TASKS in task_ids
cause panics, not returned error results. -/
theorem missing_env_vars_panic :
    (task_config (fun _ => Except.ok ()) (fun _ => none)).2 =
      RunResult.panics "missing HUBRIS_TASK_NAME" ∧
    (task_ids (fun _ => none)).2 = RunResult.panics "missing HUBRIS_TASKS" :=
  ⟨rfl, rfl⟩

/-- C8 amended: recoverable failures in the config accessors are returned as
typed results carrying contextual messages naming the variable or the task
involved, but a missing HUBRIS_TASK_NAME in task_config and a missing
HUBRIS_TASKS in task_ids panic instead of returning an error. -/
theorem error_propagation_policy {T : Type} (parse : Toml T) (env : Env) :
    (env "HUBRIS_TASK_NAME" = none →
      (task_config parse env).2 = .panics "missing HUBRIS_TASK_NAME") ∧
    (env "HUBRIS_TASKS" = none → (task_ids env).2 = .panics "missing HUBRIS_TASKS") ∧
    (∀ var, env var = some .nonUtf8 →
      (toml_from_env parse env var).2 =
        .error (.envError ("accessing environment variable " ++ var))) ∧
    (∀ name, env "HUBRIS_TASK_NAME" = some (.utf8 name) →
      env "HUBRIS_TASK_CONFIG" = none →
      (task_config parse env).2 = .completes (.error (.message
        ("app.toml missing task config section [tasks." ++ name ++ ".config]")))) := by
  refine ⟨fun h => ?_, fun h => ?_, fun var hv => ?_, fun name hn hc => ?_⟩ <;>
    simp [task_config, task_ids, task_maybe_config, toml_from_env, env_var, stdEnvVar, *]

/-- C8 amended witness: a present but non-UTF-8 variable is returned as a
typed error whose context names the variable. -/
theorem error_propagation_policy_witness :
    (toml_from_env (fun s => (Except.ok s : Except String String))
        (fun k => if k = "V" then some EnvVal.nonUtf8 else none) "V").2 =
      Except.error (BuildErr.envError ("accessing environment variable " ++ "V")) :=
  (error_propagation_policy (fun s => (Except.ok s : Except String String))
      (fun k => if k = "V" then some EnvVal.nonUtf8 else none)).2.2.1 "V" (by decide)

/-- C10 counterexample: with HUBRIS_BOARD unset, expose_target_board still
emits the rebuild-trigger line, so its output is not empty. -/
theorem expose_target_board_emits_when_unset :
    expose_target_board (fun _ => none) = ["cargo:rerun-if-env-changed=HUBRIS_BOARD"] ∧
    expose_target_board (fun _ => none) ≠ [] :=
  ⟨rfl, by decide⟩

/-- C10 amended: expose_target_board always emits the rebuild-trigger line
for HUBRIS_BOARD; when the variable is unset it emits nothing further (in
particular no cfg flag), and when it is set to b it emits exactly one cfg
flag carrying b as a quoted string value. -/
theorem expose_target_board_flags (env : Env) :
    (env "HUBRIS_BOARD" = none →
      expose_target_board env = ["cargo:rerun-if-env-changed=HUBRIS_BOARD"]) ∧
    (∀ b, env "HUBRIS_BOARD" = some (.utf8 b) →
      expose_target_board env =
        ["cargo:rerun-if-env-changed=HUBRIS_BOARD",
         "cargo:rustc-cfg=target_board=\"" ++ b ++ "\""]) := by
  refine ⟨fun h => ?_, fun b hb => ?_⟩ <;> simp [expose_target_board, env_var, stdEnvVar, *]

/-- C10 amended witness: concrete board gemini yields the rebuild-trigger
line and exactly one cfg flag. -/
theorem expose_target_board_flags_witness :
    expose_target_board
        (fun k => if k = "HUBRIS_BOARD" then some (EnvVal.utf8 "gemini") else none) =
      ["cargo:rerun-if-env-changed=HUBRIS_BOARD",
       "cargo:rustc-cfg=target_board=\"" ++ "gemini" ++ "\""] :=
  (expose_target_board_flags
      (fun k => if k = "HUBRIS_BOARD" then some (EnvVal.utf8 "gemini") else none)).2
    "gemini" (by decide)

/-- C3: for a HUBRIS_TASKS list with pairwise-distinct names, the map built
by task_ids assigns each name its zero-based position in the list: get
returns that position for every listed name and none for every other name;
concretely, for a,b,c: get b is some 1, get z is none, and names_to_ids on
[c, a] is ok [2, 0] in that order. -/
theorem task_ids_positional (env : Env) (ts : String)
    (h : env "HUBRIS_TASKS" = some (.utf8 ts))
    (hnd : (splitCommaStr ts).Nodup) :
    (task_ids env).2 = .completes (taskIdsOf ts) ∧
    (∀ (i : Nat) (n : String), (splitCommaStr ts)[i]? = some n →
      (taskIdsOf ts).get n = some i) ∧
    (∀ n, n ∉ splitCommaStr ts → (taskIdsOf ts).get n = none) ∧
    ((taskIdsOf "a,b,c").get "b" = some 1 ∧ (taskIdsOf "a,b,c").get "z" = none ∧
      (taskIdsOf "a,b,c").names_to_ids ["c", "a"] = .ok [2, 0]) := by
  refine ⟨?_, fun i n hin => ?_, fun n hn => ?_, by decide, by decide, by decide⟩
  · simp [task_ids, env_var, stdEnvVar, h]
  · rw [TaskIds.get_eq_lookupLast]
    have := lookupLast_entriesFrom_nodup (splitCommaStr ts) hnd 0 i n hin
    simpa [taskIdsOf] using this
  · rw [TaskIds.get_eq_lookupLast]
    exact lookupLast_entriesFrom_notMem n (splitCommaStr ts) 0 hn

/-- C3 witness: the concrete environment HUBRIS_TASKS=a,b,c builds the
positional map. -/
theorem task_ids_positional_witness :
    (task_ids (fun k => if k = "HUBRIS_TASKS" then some (EnvVal.utf8 "a,b,c") else none)).2
      = RunResult.completes (taskIdsOf "a,b,c") :=
  (task_ids_positional
      (fun k => if k = "HUBRIS_TASKS" then some (EnvVal.utf8 "a,b,c") else none)
      "a,b,c" (by decide) (by decide)).1

/-- C4: names_to_ids fails as a whole, naming the first unrecognized name in
input order, when any name is missing from the map, and returns the list of
looked-up ids in input order when every name is present. -/
theorem names_to_ids_atomic (t : TaskIds) (names : List String) :
    (∀ bad, names.find? (fun n => (t.get n).isNone) = some bad →
      t.names_to_ids names = .error (.message ("unknown task `" ++ bad ++ "`"))) ∧
    ((∀ n ∈ names, (t.get n).isSome) →
      t.names_to_ids names = .ok (names.map fun n => (t.get n).getD 0)) :=
  ⟨fun bad h => names_to_ids_first_unknown t names bad h,
   fun h => names_to_ids_all_present t names h⟩

/-- C4 witness: on the a,b,c map, translating [b, z] fails naming z. -/
theorem names_to_ids_atomic_witness :
    (taskIdsOf "a,b,c").names_to_ids ["b", "z"]
      = Except.error (BuildErr.message ("unknown task `" ++ "z" ++ "`")) :=
  (names_to_ids_atomic (taskIdsOf "a,b,c") ["b", "z"]).1 "z" (by decide)

/-- C9: when HUBRIS_TASKS holds the same name at two positions i before j,
the map construction still completes (duplicates are not an error) and get
on that name returns the index of an occurrence strictly later than i, so
the earlier index i is unreachable through lookup. -/
theorem task_ids_duplicates (env : Env) (ts : String)
    (h : env "HUBRIS_TASKS" = some (.utf8 ts))
    (n : String) (i j : Nat) (hij : i < j)
    (hi : (splitCommaStr ts)[i]? = some n) (hj : (splitCommaStr ts)[j]? = some n) :
    (task_ids env).2 = .completes (taskIdsOf ts) ∧
    ∃ m, i < m ∧ (splitCommaStr ts)[m]? = some n ∧
      (taskIdsOf ts).get n = some m ∧ (taskIdsOf ts).get n ≠ some i := by
  have hmem : n ∈ splitCommaStr ts := List.getElem?_mem hj
  obtain ⟨m, h1, h2, h3⟩ := lookupLast_entriesFrom_lastOcc (splitCommaStr ts) n hmem 0
  have hjm : j ≤ m := by
    by_contra hlt
    exact h3 j (by omega) hj
  have hget : (taskIdsOf ts).get n = some m := by
    rw [TaskIds.get_eq_lookupLast]
    simpa [taskIdsOf] using h2
  refine ⟨by simp [task_ids, env_var, stdEnvVar, h], m, by omega, h1, hget, ?_⟩
  rw [hget]
  intro hc
  have : m = i := by simpa using hc
  omega

/-- C9 witness: HUBRIS_TASKS=a,b,a makes the first index of a unreachable;
get a is the index of a later occurrence. -/
theorem task_ids_duplicates_witness :
    (task_ids (fun k => if k = "HUBRIS_TASKS" then some (EnvVal.utf8 "a,b,a") else none)).2
      = RunResult.completes (taskIdsOf "a,b,a") ∧
    ∃ m, 0 < m ∧ (splitCommaStr "a,b,a")[m]? = some "a" ∧
      (taskIdsOf "a,b,a").get "a" = some m ∧ (taskIdsOf "a,b,a").get "a" ≠ some 0 :=
  task_ids_duplicates
    (fun k => if k = "HUBRIS_TASKS" then some (EnvVal.utf8 "a,b,a") else none)
    "a,b,a" (by decide) "a" 0 2 (by decide) (by decide) (by decide)

end BuildUtil
